import Mathlib

/-!
Verification model of the multi-peer-mesh repository: the `MultiPeerMesh`
class (src/src/MultiPeerMesh.js) and the near-duplicate alternate transport
binding `SimplePeerMesh` (the second, unnamed source file).  The peer
connection capability (simple-peer) and the signaling channel are external
dependencies of the repository; they are modelled by the observable
behavior the orchestrator relies on: the `connected` flag read by
`getConnectedPeerCount`, the error raised by destroying an
already-destroyed capability, and the room-count field kept by the
signaling module, which is undefined until the first relay update.
-/

/-- Model of an external simple-peer connection capability: the connected
flag read by getConnectedPeerCount, and a destroyed flag that drives the
behavior of a second destroy call. -/
structure Peer where
  connected : Bool
  destroyed : Bool
deriving Repr, DecidableEq

/-- A freshly created capability (createPeer): not yet connected. -/
def newPeer : Peer := ⟨false, false⟩

/-- A capability whose transport handshake has completed. -/
def connPeer : Peer := ⟨true, false⟩

/-- simple-peer destroy(): destroying an already-destroyed capability
raises an error; otherwise the capability becomes destroyed. -/
def capDestroy (p : Peer) : Except String Peer :=
  if p.destroyed then .error "already destroyed"
  else .ok { p with connected := false, destroyed := true }

/-- JS obj.hasOwnProperty(k) on the peer map (an object keyed by socket
id strings, modelled as an association list in insertion order). -/
def hasKey (ps : List (String × Peer)) (k : String) : Bool :=
  ps.any (fun e => e.1 == k)

/-- JS property read obj[k]: some value, or none for undefined. -/
def getKey (ps : List (String × Peer)) (k : String) : Option Peer :=
  (ps.find? (fun e => e.1 == k)).map (fun e => e.2)

/-- JS assignment obj[k] = v: replaces the value at an existing key,
otherwise appends the new key, as JS objects do. -/
def setKey (ps : List (String × Peer)) (k : String) (v : Peer) : List (String × Peer) :=
  if hasKey ps k then ps.map (fun e => if e.1 == k then (e.1, v) else e)
  else ps ++ [(k, v)]

/-- JS delete obj[k]. -/
def delKey (ps : List (String × Peer)) (k : String) : List (String × Peer) :=
  ps.filter (fun e => !(e.1 == k))

/-- The capability stored at k sets its own connected flag before its
connect notification is handled. -/
def markConnected (ps : List (String × Peer)) (k : String) : List (String × Peer) :=
  ps.map (fun e => if e.1 == k then (e.1, { e.2 with connected := true }) else e)

/-- Counts the map entries whose capability reports connected
(getConnectedPeerCount, identical in both classes). -/
def getConnectedPeerCount (ps : List (String × Peer)) : Nat :=
  ps.countP (fun e => e.2.connected)

/-- Inbound events driving the orchestrator: the relay events room-count,
initialize, destroy and signal, and the per-capability connect
notification. -/
inductive Ev
  | roomCountEv (n : Int)
  | initEv (id : String)
  | destroyEv (id : String)
  | signalEv (id : String)
  | peerConnectEv (id : String)
deriving Repr, DecidableEq

/-- Notifications emitted upward by the orchestrator. -/
inductive Out
  | roomCountOut (n : Int)
  | connectOut (id : String)
  | disconnectOut (id : String)
  | fullConnect
deriving Repr, DecidableEq

/-- Recognizer for room-count events. -/
def isRoomCountEv : Ev → Bool
  | .roomCountEv _ => true
  | _ => false

/-- JSON values, for modelling structured (non-text) payloads. -/
inductive JVal
  | jnull
  | jbool (b : Bool)
  | jnum (n : Int)
  | jstr (s : String)
  | jarr (xs : List JVal)
  | jobj (fields : List (String × JVal))

mutual
/-- Model of the JSON.stringify builtin on JVal: a deterministic canonical
text form (string escaping is elided, which does not affect determinism). -/
def jsonStringify : JVal → String
  | .jnull => "null"
  | .jbool true => "true"
  | .jbool false => "false"
  | .jnum n => toString n
  | .jstr s => "\"" ++ s ++ "\""
  | .jarr xs => "[" ++ jsonStringifyArr xs ++ "]"
  | .jobj fs => "\x7b" ++ jsonStringifyObj fs ++ "\x7d"

/-- Comma-joined stringification of array elements. -/
def jsonStringifyArr : List JVal → String
  | [] => ""
  | [x] => jsonStringify x
  | x :: y :: rest => jsonStringify x ++ "," ++ jsonStringifyArr (y :: rest)

/-- Comma-joined stringification of object fields. -/
def jsonStringifyObj : List (String × JVal) → String
  | [] => ""
  | [(k, v)] => "\"" ++ k ++ "\":" ++ jsonStringify v
  | (k, v) :: f :: rest =>
      "\"" ++ k ++ "\":" ++ jsonStringify v ++ "," ++ jsonStringifyObj (f :: rest)
end

/-- A payload handed to broadcast or send: the JS typeof test distinguishes
text from structured data. -/
inductive Msg
  | text (s : String)
  | structured (v : JVal)

/-- The encoding MultiPeerMesh applies before sending: text as-is,
anything else through JSON.stringify. -/
def encodeMsg : Msg → String
  | .text s => s
  | .structured v => jsonStringify v

/-- Whether a payload is text. -/
def isTextMsg : Msg → Bool
  | .text _ => true
  | .structured _ => false

namespace MultiPeerMesh

/-- Orchestrator state: the peer map, the last relay-reported room count
as stored on the signaling module (none models the JS undefined that holds
until the first relay update, per the external signaling channel
contract), and whether the signaling channel has been destroyed. -/
structure MeshState where
  peers : List (String × Peer)
  roomCount : Option Int
  signalDestroyed : Bool
deriving Repr, DecidableEq

/-- The orchestrator state right after construction and connect(). -/
def init : MeshState := ⟨[], none, false⟩

/-- JS comparison x >= y where y may be undefined: any ordered comparison
with undefined is false. -/
def jsGe (x : Int) : Option Int → Bool
  | none => false
  | some y => decide (x ≥ y)

/-- isFullyConnected(): peerCount + 1 >= signal.roomCount. -/
def isFullyConnected (s : MeshState) : Bool :=
  jsGe ((getConnectedPeerCount s.peers : Int) + 1) s.roomCount

/-- checkFullConnect(): emits full-connect whenever the predicate holds at
this evaluation; there is no stored previous value. -/
def checkFullConnect (s : MeshState) : List Out :=
  if isFullyConnected s then [.fullConnect] else []

/-- One inbound event, processed by the handlers registered in connect()
and createPeer(); yields the successor state and the notifications
emitted during that step.  In the destroy handler the capability destroy
call is wrapped in try/catch, so its two outcomes continue identically. -/
def step (s : MeshState) : Ev → MeshState × List Out
  | .roomCountEv n =>
      let s1 : MeshState := { s with roomCount := some n }
      (s1, .roomCountOut n :: checkFullConnect s1)
  | .initEv id =>
      ({ s with peers := setKey s.peers id newPeer }, [])
  | .destroyEv id =>
      match getKey s.peers id with
      | some p =>
          match capDestroy p with
          | .ok _ => ({ s with peers := delKey s.peers id }, [.disconnectOut id])
          | .error _ => ({ s with peers := delKey s.peers id }, [.disconnectOut id])
      | none => (s, [])
  | .signalEv id =>
      if hasKey s.peers id then (s, [])
      else ({ s with peers := setKey s.peers id newPeer }, [])
  | .peerConnectEv id =>
      let s1 : MeshState := { s with peers := markConnected s.peers id }
      (s1, .connectOut id :: checkFullConnect s1)

/-- State after a sequence of events. -/
def runState (s : MeshState) : List Ev → MeshState
  | [] => s
  | e :: rest => runState (step s e).1 rest

/-- All notifications emitted while a sequence of events is processed. -/
def runOuts (s : MeshState) : List Ev → List Out
  | [] => []
  | e :: rest => (step s e).2 ++ runOuts (step s e).1 rest

/-- broadcast(message): iterates the peer map; every own, non-null entry
receives the encoded payload.  The connected state is not consulted, and
map values are never null since only capability objects are stored. -/
def broadcast (ps : List (String × Peer)) (m : Msg) : List (String × String) :=
  ps.map (fun e => (e.1, encodeMsg m))

/-- send(id, message): delivers the encoded payload when hasOwnProperty(id)
holds and the entry is non-null (always true for stored capabilities). -/
def send (ps : List (String × Peer)) (id : String) (m : Msg) : List (String × String) :=
  if hasKey ps id then [(id, encodeMsg m)] else []

/-- The property key that hasOwnProperty receives in sendStream and
removeStream, whose condition reads hasOwnProperty of the conjunction of
id with the null test on this.peers[id]: for a truthy (nonempty) id the
argument is the boolean value of the null test, which is true both for a
stored capability and for an absent key (undefined differs from null),
and hasOwnProperty coerces that boolean to the key "true"; a falsy
(empty) id is itself the value of the conjunction. -/
def streamCheckKey (id : String) : String :=
  if id = "" then id else "true"

/-- sendStream(id, stream): performs the defective membership test and
then reads this.peers[id]; when the test passes but id is absent, calling
addStream on undefined raises a TypeError.  Streams are modelled by
numeric handles. -/
def sendStream (ps : List (String × Peer)) (id : String) (strm : Nat) :
    Except String (List (String × Nat)) :=
  if hasKey ps (streamCheckKey id) then
    match getKey ps id with
    | some _ => .ok [(id, strm)]
    | none => .error "TypeError: addStream of undefined"
  else .ok []

/-- removeStream(id, stream): same defective membership test. -/
def removeStream (ps : List (String × Peer)) (id : String) (strm : Nat) :
    Except String (List (String × Nat)) :=
  if hasKey ps (streamCheckKey id) then
    match getKey ps id with
    | some _ => .ok [(id, strm)]
    | none => .error "TypeError: removeStream of undefined"
  else .ok []

/-- The loop of destroy(): every key of the map is deleted in turn; each
capability destroy error is caught and ignored, so the deletions always
happen. -/
def destroyAllPeers (ps : List (String × Peer)) : List (String × Peer) :=
  (ps.map Prod.fst).foldl delKey ps

/-- destroy(): tears down the signaling channel (external; modelled as a
flag) and deletes every peer entry, swallowing capability destroy
failures. -/
def destroy (s : MeshState) : MeshState :=
  { s with signalDestroyed := true, peers := destroyAllPeers s.peers }

/-- The lifecycle of one waitFor(event, timeout) call: whether the promise
has settled (true resolved, false rejected), whether the once-listener is
still registered, and whether the reject timer is still pending. -/
structure WaitForState where
  settled : Option Bool
  listenerActive : Bool
  timerActive : Bool
deriving Repr, DecidableEq

/-- A waitFor call right after registration. -/
def waitForStart (hasTimeout : Bool) : WaitForState := ⟨none, true, hasTimeout⟩

/-- The two things that can happen to a pending waitFor. -/
inductive WaitForEv
  | timerFire
  | emitEvent
deriving Repr, DecidableEq

/-- waitFor dynamics, from the source: the timer rejects (a settled
promise stays as it was) and only clears itself, leaving the
once-listener registered; the awaited event resolves, removes its
listener (once semantics) and clears the timer. -/
def waitForStep (w : WaitForState) : WaitForEv → WaitForState
  | .timerFire =>
      if w.timerActive then
        { settled := match w.settled with | some b => some b | none => some false
          listenerActive := w.listenerActive
          timerActive := false }
      else w
  | .emitEvent =>
      if w.listenerActive then
        { settled := match w.settled with | some b => some b | none => some true
          listenerActive := false
          timerActive := false }
      else w

/-- Outcome of a join call. -/
inductive JoinOutcome
  | resolvedAt (t : Nat)
  | timeoutRoomCount
  | timeoutFullConnect
deriving Repr, DecidableEq

/-- A timed event: milliseconds since the join call, and the event. -/
abbrev TEv := Nat × Ev

/-- Second phase of join (room count other than 1): awaiting the first
full-connect emission produced by a later event, within the 10000 ms
bound registered by waitFor.  The full-connect that join itself triggers
through its own checkFullConnect call happens before the listener is
registered and therefore cannot resolve this wait. -/
def joinWaitFullConnect (s : MeshState) (deadline : Nat) : List TEv → JoinOutcome
  | [] => .timeoutFullConnect
  | (t, e) :: rest =>
      if deadline < t then .timeoutFullConnect
      else if Out.fullConnect ∈ (step s e).2 then .resolvedAt t
      else joinWaitFullConnect (step s e).1 deadline rest

/-- First phase of join: signal.waitFor(room-count, 5000) resolves with
the value of the first room-count event, while events keep being
processed; join then resolves immediately on a count of 1 and otherwise
awaits full-connect.  The signaling module is external to the repository;
its waitFor is modelled by its contract: first room-count event within
5000 ms, else a Timeout rejection. -/
def joinWaitRoomCount (s : MeshState) : List TEv → JoinOutcome
  | [] => .timeoutRoomCount
  | (t, e) :: rest =>
      if 5000 < t then .timeoutRoomCount
      else
        match e with
        | .roomCountEv n =>
            if n = 1 then .resolvedAt t
            else joinWaitFullConnect (step s (.roomCountEv n)).1 (t + 10000) rest
        | _ => joinWaitRoomCount (step s e).1 rest

/-- join(room, password): the two awaited phases over a timed event
trace starting at the join call, from the post-connect initial state. -/
def join (tr : List TEv) : JoinOutcome :=
  joinWaitRoomCount init tr

/-- No event of the trace that happens within the deadline emits
full-connect when processed from the given state. -/
def NoFullConnectWithin (s : MeshState) (deadline : Nat) (tr : List TEv) : Prop :=
  ∀ pre t e rest, tr = pre ++ (t, e) :: rest → t ≤ deadline →
    Out.fullConnect ∉ (step (runState s (pre.map Prod.snd)) e).2

end MultiPeerMesh

namespace SimplePeerMesh

/-- State of the alternate binding: the peer map and roomCount, which the
constructor sets to -1. -/
structure SpmState where
  peers : List (String × Peer)
  roomCount : Int
deriving Repr, DecidableEq

/-- The state right after construction. -/
def init : SpmState := ⟨[], -1⟩

/-- checkFullConnect(): fires fullConnect whenever
peerCount + 1 >= this.roomCount holds at this evaluation. -/
def checkFullConnect (s : SpmState) : List Out :=
  if (getConnectedPeerCount s.peers : Int) + 1 ≥ s.roomCount then [.fullConnect]
  else []

/-- One inbound event for the alternate binding.  Its destroy handler has
no try/catch, so a capability destroy error aborts the handler before the
entry is deleted. -/
def step (s : SpmState) : Ev → SpmState × List Out
  | .roomCountEv n =>
      let s1 : SpmState := { s with roomCount := n }
      (s1, .roomCountOut n :: checkFullConnect s1)
  | .initEv id =>
      ({ s with peers := setKey s.peers id newPeer }, [])
  | .destroyEv id =>
      match getKey s.peers id with
      | some p =>
          match capDestroy p with
          | .ok _ => ({ s with peers := delKey s.peers id }, [.disconnectOut id])
          | .error _ => (s, [])
      | none => (s, [])
  | .signalEv id =>
      if hasKey s.peers id then (s, [])
      else ({ s with peers := setKey s.peers id newPeer }, [])
  | .peerConnectEv id =>
      let s1 : SpmState := { s with peers := markConnected s.peers id }
      (s1, .connectOut id :: checkFullConnect s1)

/-- State after a sequence of events. -/
def runState (s : SpmState) : List Ev → SpmState
  | [] => s
  | e :: rest => runState (step s e).1 rest

/-- All notifications fired while a sequence of events is processed. -/
def runOuts (s : SpmState) : List Ev → List Out
  | [] => []
  | e :: rest => (step s e).2 ++ runOuts (step s e).1 rest

/-- broadcast(message) of the alternate binding: writes the payload
itself, with no encoding, to every non-null entry. -/
def broadcast (ps : List (String × Peer)) (m : Msg) : List (String × Msg) :=
  ps.map (fun e => (e.1, m))

end SimplePeerMesh

theorem foldl_delKey_eq_nil : ∀ (ks : List String) (l : List (String × Peer)),
    (∀ e ∈ l, e.1 ∈ ks) → ks.foldl delKey l = []
  | [], l, h => by
      cases l with
      | nil => rfl
      | cons x xs => exact absurd (h x (List.mem_cons_self x xs)) (List.not_mem_nil _)
  | k :: ks, l, h => by
      simp only [List.foldl_cons]
      apply foldl_delKey_eq_nil ks
      intro e he
      have he1 : e ∈ l ∧ (!(e.1 == k)) = true := List.mem_filter.mp he
      rcases he1 with ⟨hel, hne⟩
      have hne2 : ¬ e.1 = k := by simpa using hne
      rcases List.mem_cons.mp (h e hel) with h1 | h1
      · exact absurd h1 hne2
      · exact h1

theorem destroyAllPeers_eq_nil (ps : List (String × Peer)) :
    MultiPeerMesh.destroyAllPeers ps = [] := by
  apply foldl_delKey_eq_nil
  intro e he
  exact List.mem_map_of_mem Prod.fst he

theorem getKey_none_of_hasKey_false (ps : List (String × Peer)) (k : String)
    (h : hasKey ps k = false) : getKey ps k = none := by
  have h2 : ∀ e ∈ ps, ¬ (e.1 == k) = true := by
    intro e he hek
    have : hasKey ps k = true := List.any_eq_true.mpr ⟨e, he, hek⟩
    simp [this] at h
  simp only [getKey, Option.map_eq_none']
  exact List.find?_eq_none.mpr h2

theorem keys_setKey_true (ps : List (String × Peer)) (k : String) (v : Peer)
    (h : hasKey ps k = true) : (setKey ps k v).map Prod.fst = ps.map Prod.fst := by
  simp only [setKey, h, if_true, List.map_map]
  apply List.map_congr_left
  intro e _
  by_cases h1 : e.1 = k <;> simp [Function.comp, h1]

theorem keys_markConnected (ps : List (String × Peer)) (k : String) :
    (markConnected ps k).map Prod.fst = ps.map Prod.fst := by
  simp only [markConnected, List.map_map]
  apply List.map_congr_left
  intro e _
  by_cases h1 : e.1 = k <;> simp [Function.comp, h1]

theorem nodup_keys_setKey (ps : List (String × Peer)) (k : String) (v : Peer)
    (h : (ps.map Prod.fst).Nodup) : ((setKey ps k v).map Prod.fst).Nodup := by
  by_cases hk : hasKey ps k = true
  · rwa [keys_setKey_true ps k v hk]
  · have hk' : hasKey ps k = false := by simpa using hk
    have hnotin : k ∉ ps.map Prod.fst := by
      intro hmem
      rcases List.mem_map.mp hmem with ⟨e, he, hek⟩
      have : hasKey ps k = true := List.any_eq_true.mpr ⟨e, he, by simp [hek]⟩
      simp [this] at hk'
    simp only [setKey, hk', Bool.false_eq_true, if_false, List.map_append, List.map_cons,
      List.map_nil, List.nodup_append]
    refine ⟨h, List.nodup_singleton k, ?_⟩
    intro a ha hak
    rcases List.mem_singleton.mp hak with rfl
    exact hnotin ha

theorem nodup_keys_delKey (ps : List (String × Peer)) (k : String)
    (h : (ps.map Prod.fst).Nodup) : ((delKey ps k).map Prod.fst).Nodup :=
  List.Nodup.sublist (List.Sublist.map Prod.fst (List.filter_sublist ps)) h

theorem nodup_keys_step_mpm (s : MultiPeerMesh.MeshState) (e : Ev)
    (h : (s.peers.map Prod.fst).Nodup) :
    (((MultiPeerMesh.step s e).1).peers.map Prod.fst).Nodup := by
  cases e with
  | roomCountEv n => exact h
  | initEv id => exact nodup_keys_setKey s.peers id newPeer h
  | destroyEv id =>
      simp only [MultiPeerMesh.step]
      split
      · split <;> exact nodup_keys_delKey s.peers id h
      · exact h
  | signalEv id =>
      simp only [MultiPeerMesh.step]
      split
      · exact h
      · exact nodup_keys_setKey s.peers id newPeer h
  | peerConnectEv id =>
      show ((markConnected s.peers id).map Prod.fst).Nodup
      rw [keys_markConnected]
      exact h

theorem nodup_keys_step_spm (s : SimplePeerMesh.SpmState) (e : Ev)
    (h : (s.peers.map Prod.fst).Nodup) :
    (((SimplePeerMesh.step s e).1).peers.map Prod.fst).Nodup := by
  cases e with
  | roomCountEv n => exact h
  | initEv id => exact nodup_keys_setKey s.peers id newPeer h
  | destroyEv id =>
      simp only [SimplePeerMesh.step]
      split
      · split
        · exact nodup_keys_delKey s.peers id h
        · exact h
      · exact h
  | signalEv id =>
      simp only [SimplePeerMesh.step]
      split
      · exact h
      · exact nodup_keys_setKey s.peers id newPeer h
  | peerConnectEv id =>
      show ((markConnected s.peers id).map Prod.fst).Nodup
      rw [keys_markConnected]
      exact h

theorem nodup_keys_runState_mpm : ∀ (tr : List Ev) (s : MultiPeerMesh.MeshState),
    (s.peers.map Prod.fst).Nodup →
    (((MultiPeerMesh.runState s tr)).peers.map Prod.fst).Nodup
  | [], _, h => h
  | e :: rest, s, h =>
      nodup_keys_runState_mpm rest (MultiPeerMesh.step s e).1 (nodup_keys_step_mpm s e h)

theorem nodup_keys_runState_spm : ∀ (tr : List Ev) (s : SimplePeerMesh.SpmState),
    (s.peers.map Prod.fst).Nodup →
    (((SimplePeerMesh.runState s tr)).peers.map Prod.fst).Nodup
  | [], _, h => h
  | e :: rest, s, h =>
      nodup_keys_runState_spm rest (SimplePeerMesh.step s e).1 (nodup_keys_step_spm s e h)

/-- Claim C10: for every sequence of relay initialize, signal and destroy
events (and the other orchestrator events), the peer map holds at most
one entry per identity at every point, in both bindings. -/
theorem c10_peer_map_nodup (tr : List Ev) :
    (((MultiPeerMesh.runState MultiPeerMesh.init tr)).peers.map Prod.fst).Nodup
    ∧ (((SimplePeerMesh.runState SimplePeerMesh.init tr)).peers.map Prod.fst).Nodup :=
  ⟨nodup_keys_runState_mpm tr MultiPeerMesh.init (by simp [MultiPeerMesh.init]),
   nodup_keys_runState_spm tr SimplePeerMesh.init (by simp [SimplePeerMesh.init])⟩

theorem roomCount_step_of_not_rc (s : MultiPeerMesh.MeshState) (e : Ev)
    (h : isRoomCountEv e = false) :
    ((MultiPeerMesh.step s e).1).roomCount = s.roomCount := by
  cases e with
  | roomCountEv n => simp [isRoomCountEv] at h
  | initEv id => rfl
  | destroyEv id =>
      simp only [MultiPeerMesh.step]
      split
      · split <;> rfl
      · rfl
  | signalEv id =>
      simp only [MultiPeerMesh.step]
      split <;> rfl
  | peerConnectEv id => rfl

theorem step_no_fc_of_rc_none (s : MultiPeerMesh.MeshState) (e : Ev)
    (hrc : s.roomCount = none) (he : isRoomCountEv e = false) :
    Out.fullConnect ∉ (MultiPeerMesh.step s e).2 := by
  cases e with
  | roomCountEv n => simp [isRoomCountEv] at he
  | initEv id => simp [MultiPeerMesh.step]
  | destroyEv id =>
      simp only [MultiPeerMesh.step]
      split
      · split <;> simp
      · simp
  | signalEv id =>
      simp only [MultiPeerMesh.step]
      split <;> simp
  | peerConnectEv id =>
      have hfc : MultiPeerMesh.isFullyConnected
          { s with peers := markConnected s.peers id } = false := by
        simp [MultiPeerMesh.isFullyConnected, MultiPeerMesh.jsGe, hrc]
      simp [MultiPeerMesh.step, MultiPeerMesh.checkFullConnect, hfc]

theorem no_fc_runOuts_of_none : ∀ (tr : List Ev) (s : MultiPeerMesh.MeshState),
    s.roomCount = none → (∀ e ∈ tr, isRoomCountEv e = false) →
    Out.fullConnect ∉ MultiPeerMesh.runOuts s tr
  | [], _, _, _ => List.not_mem_nil _
  | e :: rest, s, hrc, h => by
      have he : isRoomCountEv e = false := h e (List.mem_cons_self e rest)
      have hrc2 : ((MultiPeerMesh.step s e).1).roomCount = none :=
        (roomCount_step_of_not_rc s e he).trans hrc
      simp only [MultiPeerMesh.runOuts, List.mem_append]
      push_neg
      exact ⟨step_no_fc_of_rc_none s e hrc he,
        no_fc_runOuts_of_none rest (MultiPeerMesh.step s e).1 hrc2
          (fun x hx => h x (List.mem_cons_of_mem e hx))⟩

/-- Claim C8 (amended): in MultiPeerMesh, where the room count held by the
signaling module is undefined until the first relay update and the JS
comparison against undefined is false, full-connect is never emitted
before the first room-count event, for any order of initialize, signal,
destroy and connect events. -/
theorem c8_no_full_connect_before_room_count (tr : List Ev)
    (h : ∀ e ∈ tr, isRoomCountEv e = false) :
    Out.fullConnect ∉ MultiPeerMesh.runOuts MultiPeerMesh.init tr :=
  no_fc_runOuts_of_none tr MultiPeerMesh.init rfl h

/-- Witness for C8: a concrete room-count-free trace in which a peer even
connects, and still no full-connect is emitted. -/
theorem c8_no_full_connect_before_room_count_inst :
    Out.fullConnect ∉
      MultiPeerMesh.runOuts MultiPeerMesh.init [Ev.initEv "A", Ev.peerConnectEv "A"] :=
  c8_no_full_connect_before_room_count [Ev.initEv "A", Ev.peerConnectEv "A"] (by decide)

/-- Counterexample for C8 as stated: in the alternate SimplePeerMesh
binding the constructor sets roomCount to -1, so the completion predicate
holds vacuously and fullConnect fires on the first peer connect although
no room-count update was ever received. -/
theorem c8_spm_early_full_connect_cex :
    SimplePeerMesh.runOuts SimplePeerMesh.init [Ev.initEv "A", Ev.peerConnectEv "A"]
      = [Out.connectOut "A", Out.fullConnect]
    ∧ isRoomCountEv (Ev.initEv "A") = false
    ∧ isRoomCountEv (Ev.peerConnectEv "A") = false :=
  ⟨rfl, rfl, rfl⟩

/-- Claim C7: teardown is idempotent at every level.  A relay destroy
event for an unknown identity is a no-op; a destroy event for an entry
whose capability is already destroyed raises inside the capability but
the error is swallowed and the teardown proceeds exactly as in the normal
case; a second orchestrator destroy() is a no-op leaving the state
consistent: empty peer map, signaling channel destroyed. -/
theorem c7_teardown_idempotent :
    (∀ (s : MultiPeerMesh.MeshState) (id : String),
        hasKey s.peers id = false → MultiPeerMesh.step s (.destroyEv id) = (s, []))
    ∧ (∀ (s : MultiPeerMesh.MeshState) (id : String) (p : Peer),
        getKey s.peers id = some p → p.destroyed = true →
        capDestroy p = .error "already destroyed"
          ∧ MultiPeerMesh.step s (.destroyEv id)
              = ({ s with peers := delKey s.peers id }, [Out.disconnectOut id]))
    ∧ (∀ s : MultiPeerMesh.MeshState,
        MultiPeerMesh.destroy (MultiPeerMesh.destroy s) = MultiPeerMesh.destroy s
          ∧ (MultiPeerMesh.destroy s).peers = []
          ∧ (MultiPeerMesh.destroy s).signalDestroyed = true) := by
  refine ⟨?_, ?_, ?_⟩
  · intro s id h
    simp [MultiPeerMesh.step, getKey_none_of_hasKey_false s.peers id h]
  · intro s id p hg hd
    have hc : capDestroy p = .error "already destroyed" := by simp [capDestroy, hd]
    exact ⟨hc, by simp [MultiPeerMesh.step, hg, hc]⟩
  · intro s
    refine ⟨?_, ?_, rfl⟩
    · simp [MultiPeerMesh.destroy, destroyAllPeers_eq_nil]
    · simp [MultiPeerMesh.destroy, destroyAllPeers_eq_nil]

/-- Witness for C7 at concrete states: destroy of an absent identity on a
nonempty map, destroy of an entry whose capability is already destroyed,
and double orchestrator destroy. -/
theorem c7_teardown_idempotent_inst :
    MultiPeerMesh.step ⟨[("B", connPeer)], some 2, false⟩ (.destroyEv "A")
      = (⟨[("B", connPeer)], some 2, false⟩, [])
    ∧ (capDestroy ⟨false, true⟩ = .error "already destroyed"
        ∧ MultiPeerMesh.step ⟨[("A", ⟨false, true⟩)], some 2, false⟩ (.destroyEv "A")
            = (⟨delKey [("A", ⟨false, true⟩)] "A", some 2, false⟩, [Out.disconnectOut "A"]))
    ∧ (MultiPeerMesh.destroy (MultiPeerMesh.destroy ⟨[("A", connPeer)], some 3, false⟩)
          = MultiPeerMesh.destroy ⟨[("A", connPeer)], some 3, false⟩
        ∧ (MultiPeerMesh.destroy ⟨[("A", connPeer)], some 3, false⟩).peers = []
        ∧ (MultiPeerMesh.destroy ⟨[("A", connPeer)], some 3, false⟩).signalDestroyed = true) :=
  ⟨c7_teardown_idempotent.1 _ "A" (by decide),
   c7_teardown_idempotent.2.1 _ "A" ⟨false, true⟩ (by decide) rfl,
   c7_teardown_idempotent.2.2 _⟩

/-- Counterexample for C9 as stated: when the waitFor timer fires first,
the wait is rejected but the once-listener is still registered — a
dangling listener, contrary to the claimed clean cancellation. -/
theorem c9_waitfor_dangling_listener_cex :
    (MultiPeerMesh.waitForStep (MultiPeerMesh.waitForStart true) .timerFire).settled
      = some false
    ∧ (MultiPeerMesh.waitForStep (MultiPeerMesh.waitForStart true) .timerFire).listenerActive
      = true :=
  ⟨rfl, rfl⟩

/-- Claim C9 (amended): the wait settles at most once — once settled, no
later timer or event firing changes the outcome; a pending timer firing
rejects the wait but never removes the once-listener (it stays registered
until the event next fires); and once the timer is gone only the awaited
event can touch the wait, so nothing cancels it at teardown. -/
theorem c9_waitfor_amended :
    (∀ (w : MultiPeerMesh.WaitForState) (e : MultiPeerMesh.WaitForEv) (b : Bool),
        w.settled = some b → (MultiPeerMesh.waitForStep w e).settled = some b)
    ∧ (∀ w : MultiPeerMesh.WaitForState, w.settled = none → w.timerActive = true →
        (MultiPeerMesh.waitForStep w .timerFire).settled = some false)
    ∧ (∀ w : MultiPeerMesh.WaitForState,
        (MultiPeerMesh.waitForStep w .timerFire).listenerActive = w.listenerActive)
    ∧ (∀ w : MultiPeerMesh.WaitForState, w.timerActive = false →
        MultiPeerMesh.waitForStep w .timerFire = w) := by
  refine ⟨?_, ?_, ?_, ?_⟩
  · intro w e b h
    cases e <;> simp only [MultiPeerMesh.waitForStep] <;> split <;> simp [h]
  · intro w h1 h2
    simp [MultiPeerMesh.waitForStep, h1, h2]
  · intro w
    simp only [MultiPeerMesh.waitForStep]
    split <;> rfl
  · intro w h
    simp [MultiPeerMesh.waitForStep, h]

/-- Witness for C9 at concrete wait states. -/
theorem c9_waitfor_amended_inst :
    (MultiPeerMesh.waitForStep ⟨some true, true, true⟩ .timerFire).settled = some true
    ∧ (MultiPeerMesh.waitForStep (MultiPeerMesh.waitForStart true) .timerFire).settled
        = some false
    ∧ (MultiPeerMesh.waitForStep (MultiPeerMesh.waitForStart true) .timerFire).listenerActive
        = (MultiPeerMesh.waitForStart true).listenerActive
    ∧ MultiPeerMesh.waitForStep ⟨none, true, false⟩ .timerFire = ⟨none, true, false⟩ :=
  ⟨c9_waitfor_amended.1 _ _ true rfl,
   c9_waitfor_amended.2.1 (MultiPeerMesh.waitForStart true) rfl rfl,
   c9_waitfor_amended.2.2.1 (MultiPeerMesh.waitForStart true),
   c9_waitfor_amended.2.2.2 _ rfl⟩

/-- Claim C1 evaluated at a failing input: checkFullConnect is
level-triggered, so from the initial state the trace of two room-count 1
events emits full-connect twice, although the completion predicate was
already true when the second evaluation ran — there was no false-to-true
transition before the second emission. -/
theorem c1_full_connect_level_triggered :
    MultiPeerMesh.runOuts MultiPeerMesh.init [Ev.roomCountEv 1, Ev.roomCountEv 1]
      = [Out.roomCountOut 1, Out.fullConnect, Out.roomCountOut 1, Out.fullConnect]
    ∧ MultiPeerMesh.isFullyConnected
        (MultiPeerMesh.runState MultiPeerMesh.init [Ev.roomCountEv 1]) = true :=
  ⟨rfl, rfl⟩

/-- Claim C2 evaluated at the spec test input: broadcast with peers A
connected and B pending invokes send on both entries — the pending peer B
is not skipped, because the loop never consults the connected state. -/
theorem c2_broadcast_sends_to_pending :
    MultiPeerMesh.broadcast [("A", connPeer), ("B", newPeer)] (Msg.text "hello")
      = [("A", "hello"), ("B", "hello")]
    ∧ connPeer.connected = true ∧ newPeer.connected = false :=
  ⟨rfl, rfl, rfl⟩

/-- Claim C4 evaluated at failing inputs: sendStream and removeStream test
hasOwnProperty on the key "true" (the coerced boolean of the conjunction
id AND-AND lookup), so a connected entry at id "A" receives nothing;
when a map happens to own the key "true", the subsequent read of the
absent id raises a TypeError; and send delivers to a pending (not yet
connected) entry instead of being a no-op. -/
theorem c4_stream_ops_defective_lookup :
    MultiPeerMesh.sendStream [("A", connPeer)] "A" 7 = .ok []
    ∧ MultiPeerMesh.removeStream [("A", connPeer)] "A" 7 = .ok []
    ∧ hasKey [("A", connPeer)] "A" = true
    ∧ connPeer.connected = true
    ∧ MultiPeerMesh.sendStream [("true", connPeer)] "B" 7
        = .error "TypeError: addStream of undefined"
    ∧ MultiPeerMesh.send [("B", newPeer)] "B" (Msg.text "x") = [("B", "x")] :=
  ⟨rfl, rfl, rfl, rfl, rfl, rfl⟩

/-- Counterexample for C5 as stated: after the reachable state built by
room-count 1 followed by initialize A, the relay destroy event for A
leaves the completion predicate true, yet the destroy step emits only
disconnect — the destroy handler performs no completion recomputation. -/
theorem c5_destroy_no_recompute_cex :
    MultiPeerMesh.isFullyConnected
        (MultiPeerMesh.step
          (MultiPeerMesh.runState MultiPeerMesh.init [Ev.roomCountEv 1, Ev.initEv "A"])
          (Ev.destroyEv "A")).1 = true
    ∧ (MultiPeerMesh.step
          (MultiPeerMesh.runState MultiPeerMesh.init [Ev.roomCountEv 1, Ev.initEv "A"])
          (Ev.destroyEv "A")).2 = [Out.disconnectOut "A"]
    ∧ Out.fullConnect ∉
        (MultiPeerMesh.step
          (MultiPeerMesh.runState MultiPeerMesh.init [Ev.roomCountEv 1, Ev.initEv "A"])
          (Ev.destroyEv "A")).2 :=
  ⟨rfl, rfl, by decide⟩

/-- Claim C5 (amended): the completion determination is recomputed — and
full-connect emitted exactly when the predicate holds on the new state —
after every room-count update and after every capability connect
notification; it is never recomputed by the destroy, initialize or signal
handlers, so departures trigger no recomputation by themselves. -/
theorem c5_recompute_amended (s : MultiPeerMesh.MeshState) (n : Int) (id : String) :
    (Out.fullConnect ∈ (MultiPeerMesh.step s (.roomCountEv n)).2
        ↔ MultiPeerMesh.isFullyConnected (MultiPeerMesh.step s (.roomCountEv n)).1 = true)
    ∧ (Out.fullConnect ∈ (MultiPeerMesh.step s (.peerConnectEv id)).2
        ↔ MultiPeerMesh.isFullyConnected (MultiPeerMesh.step s (.peerConnectEv id)).1 = true)
    ∧ Out.fullConnect ∉ (MultiPeerMesh.step s (.destroyEv id)).2
    ∧ Out.fullConnect ∉ (MultiPeerMesh.step s (.initEv id)).2
    ∧ Out.fullConnect ∉ (MultiPeerMesh.step s (.signalEv id)).2 := by
  refine ⟨?_, ?_, ?_, ?_, ?_⟩
  · simp only [MultiPeerMesh.step, MultiPeerMesh.checkFullConnect]
    split <;> rename_i hfc <;> simp [hfc]
  · simp only [MultiPeerMesh.step, MultiPeerMesh.checkFullConnect]
    split <;> rename_i hfc <;> simp [hfc]
  · simp only [MultiPeerMesh.step]
    split
    · split <;> simp
    · simp
  · simp [MultiPeerMesh.step]
  · simp only [MultiPeerMesh.step]
    split <;> simp

/-- Counterexample for C6 as stated: the alternate SimplePeerMesh binding
writes the payload raw — a connected peer receives the structured value
itself, not a canonical text encoding of it. -/
theorem c6_spm_broadcast_unencoded_cex :
    SimplePeerMesh.broadcast [("A", connPeer)]
        (Msg.structured (JVal.jobj [("x", JVal.jnum 1)]))
      = [("A", Msg.structured (JVal.jobj [("x", JVal.jnum 1)]))]
    ∧ isTextMsg (Msg.structured (JVal.jobj [("x", JVal.jnum 1)])) = false
    ∧ connPeer.connected = true :=
  ⟨rfl, rfl, rfl⟩

/-- Claim C6 (amended): in MultiPeerMesh every payload delivered by
broadcast or send is the one canonical encoding of the message — text
as-is, structured payloads through the deterministic JSON.stringify — so
all recipients, the connected ones in particular, receive identical text;
in the alternate SimplePeerMesh binding broadcast delivers the payload
unencoded. -/
theorem c6_encoding_amended :
    (∀ (ps : List (String × Peer)) (m : Msg) (pr : String × String),
        pr ∈ MultiPeerMesh.broadcast ps m → pr.2 = encodeMsg m)
    ∧ (∀ (ps : List (String × Peer)) (id : String) (m : Msg) (pr : String × String),
        pr ∈ MultiPeerMesh.send ps id m → pr.2 = encodeMsg m)
    ∧ (∀ s : String, encodeMsg (.text s) = s)
    ∧ (∀ v : JVal, encodeMsg (.structured v) = jsonStringify v)
    ∧ (∀ (ps : List (String × Peer)) (m : Msg) (qr : String × Msg),
        qr ∈ SimplePeerMesh.broadcast ps m → qr.2 = m) := by
  refine ⟨?_, ?_, fun s => rfl, fun v => rfl, ?_⟩
  · intro ps m pr h
    rcases List.mem_map.mp h with ⟨e, _, rfl⟩
    rfl
  · intro ps id m pr h
    simp only [MultiPeerMesh.send] at h
    split at h
    · rcases List.mem_singleton.mp h with rfl
      rfl
    · exact absurd h (List.not_mem_nil pr)
  · intro ps m qr h
    rcases List.mem_map.mp h with ⟨e, _, rfl⟩
    rfl

/-- Witness for C6 at concrete deliveries from broadcast, send and the
alternate broadcast. -/
theorem c6_encoding_amended_inst :
    ("A", "\x7b\"x\":1\x7d").2
        = encodeMsg (Msg.structured (JVal.jobj [("x", JVal.jnum 1)]))
    ∧ ("A", "hi").2 = encodeMsg (Msg.text "hi")
    ∧ ("B", Msg.text "hi").2 = Msg.text "hi" :=
  ⟨c6_encoding_amended.1 [("A", connPeer)] _ _ (List.mem_singleton.mpr rfl),
   c6_encoding_amended.2.1 [("A", connPeer)] "A" _ _ (by decide),
   c6_encoding_amended.2.2.2.2 [("B", newPeer)] _ _ (List.mem_singleton.mpr rfl)⟩

theorem fullConnect_mem_step (s : MultiPeerMesh.MeshState) (e : Ev)
    (h : Out.fullConnect ∈ (MultiPeerMesh.step s e).2) :
    MultiPeerMesh.isFullyConnected (MultiPeerMesh.step s e).1 = true := by
  cases e with
  | roomCountEv n =>
      by_cases hfc : MultiPeerMesh.isFullyConnected { s with roomCount := some n } = true
      · exact hfc
      · exfalso
        simp [MultiPeerMesh.step, MultiPeerMesh.checkFullConnect, hfc] at h
  | peerConnectEv id =>
      by_cases hfc : MultiPeerMesh.isFullyConnected
          { s with peers := markConnected s.peers id } = true
      · exact hfc
      · exfalso
        simp [MultiPeerMesh.step, MultiPeerMesh.checkFullConnect, hfc] at h
  | initEv id => exact absurd h (by simp [MultiPeerMesh.step])
  | destroyEv id =>
      exfalso
      simp only [MultiPeerMesh.step] at h
      split at h
      · split at h <;> simp at h
      · simp at h
  | signalEv id =>
      exfalso
      simp only [MultiPeerMesh.step] at h
      split at h <;> simp at h

theorem jwfc_resolved : ∀ (tr : List MultiPeerMesh.TEv) (s : MultiPeerMesh.MeshState)
    (dl t : Nat),
    MultiPeerMesh.joinWaitFullConnect s dl tr = .resolvedAt t →
    t ≤ dl ∧ ∃ pre e rest, tr = pre ++ (t, e) :: rest ∧
      Out.fullConnect ∈
        (MultiPeerMesh.step (MultiPeerMesh.runState s (pre.map Prod.snd)) e).2
  | [], s, dl, t, h => by simp [MultiPeerMesh.joinWaitFullConnect] at h
  | (t', e') :: rest, s, dl, t, h => by
      simp only [MultiPeerMesh.joinWaitFullConnect] at h
      by_cases h1 : dl < t'
      · rw [if_pos h1] at h
        exact absurd h (by simp)
      · rw [if_neg h1] at h
        by_cases h2 : Out.fullConnect ∈ (MultiPeerMesh.step s e').2
        · rw [if_pos h2] at h
          obtain rfl : t' = t := by injection h with hh
          exact ⟨Nat.le_of_not_lt h1, [], e', rest, rfl, h2⟩
        · rw [if_neg h2] at h
          obtain ⟨hle, pre, e, rest2, hdec, hmem⟩ :=
            jwfc_resolved rest (MultiPeerMesh.step s e').1 dl t h
          refine ⟨hle, (t', e') :: pre, e, rest2, ?_, ?_⟩
          · rw [hdec]; rfl
          · simpa [MultiPeerMesh.runState] using hmem

theorem jwrc_resolved : ∀ (tr : List MultiPeerMesh.TEv) (s : MultiPeerMesh.MeshState)
    (t : Nat),
    MultiPeerMesh.joinWaitRoomCount s tr = .resolvedAt t →
    (∃ pre rest, tr = pre ++ (t, Ev.roomCountEv 1) :: rest
        ∧ (∀ p ∈ pre, isRoomCountEv p.2 = false) ∧ t ≤ 5000)
    ∨ (∃ pre e rest, tr = pre ++ (t, e) :: rest
        ∧ Out.fullConnect ∈
            (MultiPeerMesh.step (MultiPeerMesh.runState s (pre.map Prod.snd)) e).2
        ∧ MultiPeerMesh.isFullyConnected
            (MultiPeerMesh.step (MultiPeerMesh.runState s (pre.map Prod.snd)) e).1 = true)
  | [], s, t, h => by simp [MultiPeerMesh.joinWaitRoomCount] at h
  | (t', e') :: rest, s, t, h => by
      cases e' with
      | roomCountEv n =>
          simp only [MultiPeerMesh.joinWaitRoomCount] at h
          by_cases h1 : 5000 < t'
          · rw [if_pos h1] at h
            exact absurd h (by simp)
          · rw [if_neg h1] at h
            by_cases hn : n = 1
            · subst hn
              rw [if_pos rfl] at h
              obtain rfl : t' = t := by injection h with hh
              exact Or.inl ⟨[], rest, rfl, by simp, Nat.le_of_not_lt h1⟩
            · rw [if_neg hn] at h
              obtain ⟨hle, pre, e, rest2, hdec, hmem⟩ :=
                jwfc_resolved rest (MultiPeerMesh.step s (.roomCountEv n)).1 (t' + 10000) t h
              have hmem2 : Out.fullConnect ∈
                  (MultiPeerMesh.step (MultiPeerMesh.runState s
                    (((t', Ev.roomCountEv n) :: pre).map Prod.snd)) e).2 := by
                simpa [MultiPeerMesh.runState] using hmem
              refine Or.inr ⟨(t', .roomCountEv n) :: pre, e, rest2, ?_, hmem2, ?_⟩
              · rw [hdec]; rfl
              · exact fullConnect_mem_step _ e hmem2
      | initEv id =>
          simp only [MultiPeerMesh.joinWaitRoomCount] at h
          by_cases h1 : 5000 < t'
          · rw [if_pos h1] at h
            exact absurd h (by simp)
          · rw [if_neg h1] at h
            rcases jwrc_resolved rest (MultiPeerMesh.step s (.initEv id)).1 t h with
              ⟨pre, rest2, hdec, hnorc, hle⟩ | ⟨pre, e, rest2, hdec, hmem, hfc⟩
            · refine Or.inl ⟨(t', .initEv id) :: pre, rest2, ?_, ?_, hle⟩
              · rw [hdec]; rfl
              · intro p hp
                rcases List.mem_cons.mp hp with rfl | hp2
                · rfl
                · exact hnorc p hp2
            · refine Or.inr ⟨(t', .initEv id) :: pre, e, rest2, ?_, ?_, ?_⟩
              · rw [hdec]; rfl
              · simpa [MultiPeerMesh.runState] using hmem
              · simpa [MultiPeerMesh.runState] using hfc
      | destroyEv id =>
          simp only [MultiPeerMesh.joinWaitRoomCount] at h
          by_cases h1 : 5000 < t'
          · rw [if_pos h1] at h
            exact absurd h (by simp)
          · rw [if_neg h1] at h
            rcases jwrc_resolved rest (MultiPeerMesh.step s (.destroyEv id)).1 t h with
              ⟨pre, rest2, hdec, hnorc, hle⟩ | ⟨pre, e, rest2, hdec, hmem, hfc⟩
            · refine Or.inl ⟨(t', .destroyEv id) :: pre, rest2, ?_, ?_, hle⟩
              · rw [hdec]; rfl
              · intro p hp
                rcases List.mem_cons.mp hp with rfl | hp2
                · rfl
                · exact hnorc p hp2
            · refine Or.inr ⟨(t', .destroyEv id) :: pre, e, rest2, ?_, ?_, ?_⟩
              · rw [hdec]; rfl
              · simpa [MultiPeerMesh.runState] using hmem
              · simpa [MultiPeerMesh.runState] using hfc
      | signalEv id =>
          simp only [MultiPeerMesh.joinWaitRoomCount] at h
          by_cases h1 : 5000 < t'
          · rw [if_pos h1] at h
            exact absurd h (by simp)
          · rw [if_neg h1] at h
            rcases jwrc_resolved rest (MultiPeerMesh.step s (.signalEv id)).1 t h with
              ⟨pre, rest2, hdec, hnorc, hle⟩ | ⟨pre, e, rest2, hdec, hmem, hfc⟩
            · refine Or.inl ⟨(t', .signalEv id) :: pre, rest2, ?_, ?_, hle⟩
              · rw [hdec]; rfl
              · intro p hp
                rcases List.mem_cons.mp hp with rfl | hp2
                · rfl
                · exact hnorc p hp2
            · refine Or.inr ⟨(t', .signalEv id) :: pre, e, rest2, ?_, ?_, ?_⟩
              · rw [hdec]; rfl
              · simpa [MultiPeerMesh.runState] using hmem
              · simpa [MultiPeerMesh.runState] using hfc
      | peerConnectEv id =>
          simp only [MultiPeerMesh.joinWaitRoomCount] at h
          by_cases h1 : 5000 < t'
          · rw [if_pos h1] at h
            exact absurd h (by simp)
          · rw [if_neg h1] at h
            rcases jwrc_resolved rest (MultiPeerMesh.step s (.peerConnectEv id)).1 t h with
              ⟨pre, rest2, hdec, hnorc, hle⟩ | ⟨pre, e, rest2, hdec, hmem, hfc⟩
            · refine Or.inl ⟨(t', .peerConnectEv id) :: pre, rest2, ?_, ?_, hle⟩
              · rw [hdec]; rfl
              · intro p hp
                rcases List.mem_cons.mp hp with rfl | hp2
                · rfl
                · exact hnorc p hp2
            · refine Or.inr ⟨(t', .peerConnectEv id) :: pre, e, rest2, ?_, ?_, ?_⟩
              · rw [hdec]; rfl
              · simpa [MultiPeerMesh.runState] using hmem
              · simpa [MultiPeerMesh.runState] using hfc

theorem jwrc_no_rc : ∀ (tr : List MultiPeerMesh.TEv) (s : MultiPeerMesh.MeshState),
    (∀ p ∈ tr, isRoomCountEv p.2 = false) →
    MultiPeerMesh.joinWaitRoomCount s tr = .timeoutRoomCount
  | [], _, _ => rfl
  | (t', e') :: rest, s, h => by
      have he : isRoomCountEv e' = false := h (t', e') (List.mem_cons_self _ _)
      have hrest : ∀ p ∈ rest, isRoomCountEv p.2 = false :=
        fun p hp => h p (List.mem_cons_of_mem _ hp)
      cases e' with
      | roomCountEv n => simp [isRoomCountEv] at he
      | initEv id =>
          simp only [MultiPeerMesh.joinWaitRoomCount]
          by_cases h1 : 5000 < t'
          · rw [if_pos h1]
          · rw [if_neg h1]
            exact jwrc_no_rc rest _ hrest
      | destroyEv id =>
          simp only [MultiPeerMesh.joinWaitRoomCount]
          by_cases h1 : 5000 < t'
          · rw [if_pos h1]
          · rw [if_neg h1]
            exact jwrc_no_rc rest _ hrest
      | signalEv id =>
          simp only [MultiPeerMesh.joinWaitRoomCount]
          by_cases h1 : 5000 < t'
          · rw [if_pos h1]
          · rw [if_neg h1]
            exact jwrc_no_rc rest _ hrest
      | peerConnectEv id =>
          simp only [MultiPeerMesh.joinWaitRoomCount]
          by_cases h1 : 5000 < t'
          · rw [if_pos h1]
          · rw [if_neg h1]
            exact jwrc_no_rc rest _ hrest

theorem jwfc_timeout : ∀ (tr : List MultiPeerMesh.TEv) (s : MultiPeerMesh.MeshState)
    (dl : Nat), MultiPeerMesh.NoFullConnectWithin s dl tr →
    MultiPeerMesh.joinWaitFullConnect s dl tr = .timeoutFullConnect
  | [], _, _, _ => rfl
  | (t', e') :: rest, s, dl, h => by
      simp only [MultiPeerMesh.joinWaitFullConnect]
      by_cases h1 : dl < t'
      · rw [if_pos h1]
      · rw [if_neg h1]
        have hnot : Out.fullConnect ∉ (MultiPeerMesh.step s e').2 := by
          have := h [] t' e' rest rfl (Nat.le_of_not_lt h1)
          simpa [MultiPeerMesh.runState] using this
        rw [if_neg hnot]
        apply jwfc_timeout rest (MultiPeerMesh.step s e').1 dl
        intro pre t2 e2 rest2 hdec hle
        have := h ((t', e') :: pre) t2 e2 rest2 (by rw [hdec]; rfl) hle
        simpa [MultiPeerMesh.runState] using this

theorem jwrc_first_rc1 : ∀ (pre : List MultiPeerMesh.TEv) (s : MultiPeerMesh.MeshState)
    (t : Nat) (rest : List MultiPeerMesh.TEv),
    (∀ p ∈ pre, isRoomCountEv p.2 = false) → (∀ p ∈ pre, p.1 ≤ 5000) → t ≤ 5000 →
    MultiPeerMesh.joinWaitRoomCount s (pre ++ (t, Ev.roomCountEv 1) :: rest)
      = .resolvedAt t
  | [], s, t, rest, _, _, ht => by
      simp only [List.nil_append, MultiPeerMesh.joinWaitRoomCount]
      rw [if_neg (Nat.not_lt.mpr ht)]
      simp
  | (t', e') :: pre, s, t, rest, h1, h2, ht => by
      have he : isRoomCountEv e' = false := h1 (t', e') (List.mem_cons_self _ _)
      have h1r : ∀ p ∈ pre, isRoomCountEv p.2 = false :=
        fun p hp => h1 p (List.mem_cons_of_mem _ hp)
      have h2r : ∀ p ∈ pre, p.1 ≤ 5000 :=
        fun p hp => h2 p (List.mem_cons_of_mem _ hp)
      have ht' : ¬ 5000 < t' := Nat.not_lt.mpr (h2 (t', e') (List.mem_cons_self _ _))
      cases e' with
      | roomCountEv n => simp [isRoomCountEv] at he
      | initEv id =>
          simp only [List.cons_append, MultiPeerMesh.joinWaitRoomCount]
          rw [if_neg ht']
          exact jwrc_first_rc1 pre _ t rest h1r h2r ht
      | destroyEv id =>
          simp only [List.cons_append, MultiPeerMesh.joinWaitRoomCount]
          rw [if_neg ht']
          exact jwrc_first_rc1 pre _ t rest h1r h2r ht
      | signalEv id =>
          simp only [List.cons_append, MultiPeerMesh.joinWaitRoomCount]
          rw [if_neg ht']
          exact jwrc_first_rc1 pre _ t rest h1r h2r ht
      | peerConnectEv id =>
          simp only [List.cons_append, MultiPeerMesh.joinWaitRoomCount]
          rw [if_neg ht']
          exact jwrc_first_rc1 pre _ t rest h1r h2r ht

/-- Claim C3: join resolves at the first room-count event itself when that
count is 1, whatever follows — no peer connection is waited on; every
other successful resolution happens exactly at an event whose processing
emits full-connect, and at that moment the full-connect condition
connectedCount + 1 at-least roomCount holds of the current state; a trace
with no room-count event times out in the 5000 ms room-count wait; and
when the first room-count differs from 1 and no event within the 10000 ms
bound emits full-connect, join rejects with the full-connect Timeout. -/
theorem c3_join_semantics :
    (∀ (pre : List MultiPeerMesh.TEv) (t : Nat) (rest : List MultiPeerMesh.TEv),
        (∀ p ∈ pre, isRoomCountEv p.2 = false) → (∀ p ∈ pre, p.1 ≤ 5000) → t ≤ 5000 →
        MultiPeerMesh.join (pre ++ (t, Ev.roomCountEv 1) :: rest) = .resolvedAt t)
    ∧ (∀ (tr : List MultiPeerMesh.TEv) (t : Nat),
        MultiPeerMesh.join tr = .resolvedAt t →
        (∃ pre rest, tr = pre ++ (t, Ev.roomCountEv 1) :: rest
            ∧ (∀ p ∈ pre, isRoomCountEv p.2 = false) ∧ t ≤ 5000)
        ∨ (∃ pre e rest, tr = pre ++ (t, e) :: rest
            ∧ Out.fullConnect ∈ (MultiPeerMesh.step
                (MultiPeerMesh.runState MultiPeerMesh.init (pre.map Prod.snd)) e).2
            ∧ MultiPeerMesh.isFullyConnected (MultiPeerMesh.step
                (MultiPeerMesh.runState MultiPeerMesh.init (pre.map Prod.snd)) e).1
                = true))
    ∧ (∀ tr : List MultiPeerMesh.TEv, (∀ p ∈ tr, isRoomCountEv p.2 = false) →
        MultiPeerMesh.join tr = .timeoutRoomCount)
    ∧ (∀ (n : Int) (rest : List MultiPeerMesh.TEv), n ≠ 1 →
        MultiPeerMesh.NoFullConnectWithin
          (MultiPeerMesh.step MultiPeerMesh.init (Ev.roomCountEv n)).1 10000 rest →
        MultiPeerMesh.join ((0, Ev.roomCountEv n) :: rest) = .timeoutFullConnect) := by
  refine ⟨?_, ?_, ?_, ?_⟩
  · intro pre t rest hnorc htimes ht
    exact jwrc_first_rc1 pre MultiPeerMesh.init t rest hnorc htimes ht
  · intro tr t h
    exact jwrc_resolved tr MultiPeerMesh.init t h
  · intro tr h
    exact jwrc_no_rc tr MultiPeerMesh.init h
  · intro n rest hn hnofc
    show MultiPeerMesh.joinWaitRoomCount MultiPeerMesh.init ((0, Ev.roomCountEv n) :: rest)
        = .timeoutFullConnect
    simp only [MultiPeerMesh.joinWaitRoomCount]
    rw [if_neg (by omega : ¬ 5000 < 0), if_neg hn]
    simpa using jwfc_timeout rest _ 10000 hnofc

/-- Witness for C3: join on the singleton room-count 1 trace resolves at
once; the resolution decomposition holds there; a trace with no
room-count event rejects; and room-count 2 with nothing after it rejects
with the full-connect Timeout. -/
theorem c3_join_semantics_inst :
    MultiPeerMesh.join [(0, Ev.roomCountEv 1)] = .resolvedAt 0
    ∧ ((∃ pre rest, [((0 : Nat), Ev.roomCountEv 1)] = pre ++ ((0 : Nat), Ev.roomCountEv 1) :: rest
          ∧ (∀ p ∈ pre, isRoomCountEv p.2 = false) ∧ (0 : Nat) ≤ 5000)
        ∨ (∃ pre e rest, [((0 : Nat), Ev.roomCountEv 1)] = pre ++ ((0 : Nat), e) :: rest
            ∧ Out.fullConnect ∈ (MultiPeerMesh.step
                (MultiPeerMesh.runState MultiPeerMesh.init (pre.map Prod.snd)) e).2
            ∧ MultiPeerMesh.isFullyConnected (MultiPeerMesh.step
                (MultiPeerMesh.runState MultiPeerMesh.init (pre.map Prod.snd)) e).1
                = true))
    ∧ MultiPeerMesh.join [(0, Ev.initEv "A")] = .timeoutRoomCount
    ∧ MultiPeerMesh.join [(0, Ev.roomCountEv 2)] = .timeoutFullConnect :=
  ⟨c3_join_semantics.1 [] 0 [] (by simp) (by simp) (by omega),
   c3_join_semantics.2.1 [(0, Ev.roomCountEv 1)] 0 (by decide),
   c3_join_semantics.2.2.1 [(0, Ev.initEv "A")] (by decide),
   c3_join_semantics.2.2.2 2 [] (by decide)
     (by intro pre t2 e2 rest2 hdec hle; simp at hdec)⟩
